import Mathlib

/-!
Verification of the stock-trading repository's time-series dataset core
(`src/stock_price_data.py`) and MACD indicator engine (`src/indicators.py`)
against its natural-language specification.

Shallow embedding conventions:
* Calendar dates are modelled as `Int` (a day ordinal); the code only ever
  compares dates and advances them by whole-day deltas.
* Prices are modelled as `ℚ` (the code uses binary floats; every claim settled
  here is about which algebraic expression is computed, not about rounding,
  and the counterexamples exhibit divergences that are far larger than any
  float rounding).
* A pandas `DataFrame` holding the six-column price table is modelled as a
  `List Record` (one `Record` per row) plus, where the MACD engine adds named
  columns, an association list of extra named numeric columns.
* The lazily memoised scalar attributes of the Python object
  (`_earliest_date`, `_latest_date`, `_len`) are carried explicitly as
  `Option` fields of the dataset state, because `__iadd__` mutates the row
  table without clearing them.
-/

/-- One row of the six-column price table: `Date, Open, High, Close, Low, Volume`
(see `STOCK_PRICE_FIELDS` in `stock_price_data.py`). -/
structure Record where
  date : Int
  open_ : ℚ
  high : ℚ
  close : ℚ
  low : ℚ
  volume : Int
deriving DecidableEq

/-- The column-header list `STOCK_PRICE_FIELDS` from `stock_price_data.py`. -/
def STOCK_PRICE_FIELDS : List String :=
  ["Date", "Open", "High", "Close", "Low", "Volume"]

/-- Date comparison between rows, the sort key used by
`dataframe.sort_values(by=["Date"])` in `StockPriceDataset.__init__`. -/
def dateLe (a b : Record) : Prop := a.date ≤ b.date

instance : DecidableRel dateLe := fun a b => inferInstanceAs (Decidable (a.date ≤ b.date))

instance : IsTotal Record dateLe := ⟨fun a b => Int.le_total a.date b.date⟩

instance : IsTrans Record dateLe := ⟨fun _ _ _ h h' => le_trans h h'⟩

/-- `dataframe.sort_values(by=["Date"])`: sort the rows by ascending date. -/
def sortByDate (l : List Record) : List Record := List.insertionSort dateLe l

/-- Rows sorted by ascending date. -/
def SortedByDate (l : List Record) : Prop := List.Pairwise dateLe l

/-- At most one row per distinct date. -/
def DatesUnique (l : List Record) : Prop :=
  List.Pairwise (fun r s => r.date ≠ s.date) l

instance (l : List Record) : Decidable (SortedByDate l) :=
  inferInstanceAs (Decidable (List.Pairwise _ l))

instance (l : List Record) : Decidable (DatesUnique l) :=
  inferInstanceAs (Decidable (List.Pairwise _ l))

/-- The Python object state of a `StockPriceDataset`: the symbol label, the
row table, and the three lazily memoised attributes `_earliest_date`,
`_latest_date` and `_len` (initialised to `None` by `__init__` and, crucially,
never cleared by `__iadd__`). -/
structure StockPriceDataset where
  symbol : String
  records : List Record
  earliest_cache : Option Int
  latest_cache : Option Int
  len_cache : Option Nat
deriving DecidableEq

namespace StockPriceDataset

/-- `StockPriceDataset.__init__`: store the symbol, sort the rows by ascending
date, and start with all three memo fields empty.  (The `KeyError` raised on a
batch missing one of the six columns cannot arise here because `Record` is
fully typed; the `pd.to_datetime` conversion is the identity on our `Int`
dates.) -/
def init (symbol : String) (batch : List Record) : StockPriceDataset :=
  { symbol := symbol
    records := sortByDate batch
    earliest_cache := none
    latest_cache := none
    len_cache := none }

/-- First pass of `drop_duplicates(subset="Date")` (default `keep="first"`):
keep a row only when its date has not been seen earlier in the list.  `seen`
accumulates the dates already kept or skipped. -/
def dedupGo : List Int → List Record → List Record
  | _, [] => []
  | seen, r :: rs =>
    if r.date ∈ seen then dedupGo seen rs
    else r :: dedupGo (r.date :: seen) rs

/-- `drop_duplicates(subset="Date")` on a row table. -/
def dedupByDate (l : List Record) : List Record := dedupGo [] l

/-- The dates recorded by `dedupGo` after it has walked `l`. -/
def seenAfter : List Int → List Record → List Int
  | seen, [] => seen
  | seen, r :: rs =>
    if r.date ∈ seen then seenAfter seen rs
    else seenAfter (r.date :: seen) rs

/-- `StockPriceDataset.__iadd__`: replace the receiver's row table with
`self.dataframe.append(other.dataframe).drop_duplicates(subset="Date")`
(`reset_index(drop=True)` only renumbers rows) and return the receiver.
Note: the rows are NOT re-sorted, and the three memo fields of the receiver
are kept as they were.  The returned dataset is the receiver's new state —
in Python `__iadd__` assigns to `self.dataframe` and returns `self`. -/
def iadd (self other : StockPriceDataset) : StockPriceDataset :=
  { self with records := dedupByDate (self.records ++ other.records) }

/-- `StockPriceDataset.__len__`: the row count, memoised in `_len`. -/
def lenPy (s : StockPriceDataset) : Nat :=
  match s.len_cache with
  | some n => n
  | none => s.records.length

/-- `StockPriceDataset.earliest_date`: the memoised value if present,
otherwise (when `len(self) > 0`) the date of the FIRST STORED row
(`self.dataframe["Date"].iloc[0]`), otherwise `None`.  The Python getter also
writes the value it returns into `_earliest_date`; the returned value is the
one modelled here. -/
def earliest_date (s : StockPriceDataset) : Option Int :=
  match s.earliest_cache with
  | some d => some d
  | none => if lenPy s > 0 then s.records.head?.map (fun r => r.date) else none

/-- `StockPriceDataset.latest_date`: as `earliest_date` but with the LAST
stored row (`self.dataframe["Date"].iloc[-1]`). -/
def latest_date (s : StockPriceDataset) : Option Int :=
  match s.latest_cache with
  | some d => some d
  | none => if lenPy s > 0 then s.records.getLast?.map (fun r => r.date) else none

/-- `StockPriceDataset._filter`: keep the rows satisfying the row predicate
and rebuild the dataset through `__init__` (hence re-sorted, fresh memo
fields, same symbol). -/
def filterDataset (s : StockPriceDataset) (p : Record → Bool) : StockPriceDataset :=
  init s.symbol (s.records.filter p)

/-- `StockPriceDataset.more_recent_than`: rows dated at or after `start`. -/
def more_recent_than (s : StockPriceDataset) (start : Int) : StockPriceDataset :=
  filterDataset s (fun r => decide (start ≤ r.date))

/-- `StockPriceDataset.less_recent_than`: rows dated at or before `stop`. -/
def less_recent_than (s : StockPriceDataset) (stop : Int) : StockPriceDataset :=
  filterDataset s (fun r => decide (r.date ≤ stop))

end StockPriceDataset

/-- Find the first row carrying the given date (how a date-keyed lookup reads
the row table). -/
def lookupDate (d : Int) : List Record → Option Record
  | [] => none
  | r :: rs => if r.date = d then some r else lookupDate d rs

/-- A concrete row dated `d` (prices 1, volume 1), used for concrete
evaluations of the embedded operations. -/
def recAt (d : Int) : Record :=
  { date := d, open_ := 1, high := 1, close := 1, low := 1, volume := 1 }

/-- A concrete one-row dataset whose single row is dated 5. -/
def dsA : StockPriceDataset := StockPriceDataset.init "PNG.V" [recAt 5]

/-- A concrete one-row dataset whose single row is dated 4. -/
def dsB : StockPriceDataset := StockPriceDataset.init "PNG.V" [recAt 4]

/-- Accumulator pass of `Series.ewm(span=s).mean()` with pandas defaults
(`adjust=True`, `min_periods=0`), as documented by pandas: the output at
index `t` is `(sum over j of om^(t-j) * x_j) / (sum over j of om^j)` with
`om = 1 - alpha`; it is produced by the recurrences
`num_t = om * num_(t-1) + x_t` and `den_t = om * den_(t-1) + 1`. -/
def ewmAdjustGo (om : ℚ) : ℚ → ℚ → List ℚ → List ℚ
  | _, _, [] => []
  | num, den, x :: xs =>
    ((om * num + x) / (om * den + 1)) :: ewmAdjustGo om (om * num + x) (om * den + 1) xs

/-- `Series.ewm(span=s).mean()` as called by `MACD.__call__` (all keyword
arguments left at their pandas defaults, so `adjust=True`), with
`alpha = 2/(s+1)`. -/
def ewmAdjust (span : Nat) (xs : List ℚ) : List ℚ :=
  ewmAdjustGo (1 - 2 / ((span : ℚ) + 1)) 0 0 xs

/-- The dataframe state `MACD.__call__` operates on: the six base columns
(held as rows) plus the named numeric columns added by indicator
computations (`dataset.dataframe[name] = series`). -/
structure PyDataset where
  base : StockPriceDataset
  extraCols : List (String × List ℚ)
deriving DecidableEq

/-- The column names of the dataframe (what `field in dataset.dataframe`
tests). -/
def pyColumns (d : PyDataset) : List String :=
  STOCK_PRICE_FIELDS ++ d.extraCols.map (fun c => c.1)

/-- Read a named extra column. -/
def lookupAssoc (k : String) : List (String × List ℚ) → Option (List ℚ)
  | [] => none
  | c :: rest => if c.1 = k then some c.2 else lookupAssoc k rest

/-- `dataframe[name] = series`: overwrite the column if it exists, otherwise
append it. -/
def updateAssoc (k : String) (v : List ℚ) : List (String × List ℚ) → List (String × List ℚ)
  | [] => [(k, v)]
  | c :: rest => if c.1 = k then (k, v) :: rest else c :: updateAssoc k v rest

/-- Read a named column of the dataframe as a numeric series, in row (= date)
order.  The `Date` and `Volume` columns are cast into `ℚ` so that the reader
is total; the MACD engine is only ever pointed at a price column. -/
def colValues (d : PyDataset) (name : String) : List ℚ :=
  if name = "Date" then d.base.records.map (fun r => (r.date : ℚ))
  else if name = "Open" then d.base.records.map (fun r => r.open_)
  else if name = "High" then d.base.records.map (fun r => r.high)
  else if name = "Close" then d.base.records.map (fun r => r.close)
  else if name = "Low" then d.base.records.map (fun r => r.low)
  else if name = "Volume" then d.base.records.map (fun r => (r.volume : ℚ))
  else (lookupAssoc name d.extraCols).getD []

/-- The configuration state of a `MACD` indicator object (`indicators.py`). -/
structure MACD where
  field : String
  fast_ewma_span : Nat
  slow_ewma_span : Nat
  signal_span : Nat
deriving DecidableEq

namespace MACD

/-- Class constant `MACD.FAST_EWMA`. -/
def FAST_EWMA : String := "Fast EWMA"

/-- Class constant `MACD.SLOW_EWMA`. -/
def SLOW_EWMA : String := "Slow EWMA"

/-- Class constant `MACD.MACD_LINE`. -/
def MACD_LINE : String := "MACD Line"

/-- Class constant `MACD.MACD_SIGNAL`. -/
def MACD_SIGNAL : String := "MACD Signal"

/-- Class constant `MACD.MACD_HISTOGRAM`. -/
def MACD_HISTOGRAM : String := "MACD Histogram"

/-- `MACD.__init__`: raises `ValueError` (the spec's `ConfigurationError`)
exactly when `slow_ewma_span <= fast_ewma_span`; otherwise stores the four
configuration values.  Note that no dataset is consulted here — the source
field is not checked at construction time. -/
def init (field : String) (fast_ewma_span slow_ewma_span signal_span : Nat) :
    Except String MACD :=
  if slow_ewma_span ≤ fast_ewma_span then
    Except.error ("Span " ++ toString fast_ewma_span ++
      " of fast EWMA is greater than or equal to span " ++ toString slow_ewma_span ++
      " of slow EWMA")
  else
    Except.ok { field := field, fast_ewma_span := fast_ewma_span,
                slow_ewma_span := slow_ewma_span, signal_span := signal_span }

/-- `Indicator.is_valid`: the dataframe must contain the field of interest. -/
def is_valid (m : MACD) (d : PyDataset) : Bool :=
  decide (m.field ∈ pyColumns d)

end MACD

/-- The source series `dataset.dataframe[self.field]` read by `MACD.__call__`. -/
def macdSourceValues (m : MACD) (d : PyDataset) : List ℚ :=
  colValues d m.field

/-- The fast-EWMA series computed by `MACD.__call__`. -/
def macdFast (m : MACD) (d : PyDataset) : List ℚ :=
  ewmAdjust m.fast_ewma_span (macdSourceValues m d)

/-- The slow-EWMA series computed by `MACD.__call__`. -/
def macdSlow (m : MACD) (d : PyDataset) : List ℚ :=
  ewmAdjust m.slow_ewma_span (macdSourceValues m d)

/-- The MACD-line series (fast minus slow, pointwise). -/
def macdLine (m : MACD) (d : PyDataset) : List ℚ :=
  List.zipWith (fun a b => a - b) (macdFast m d) (macdSlow m d)

/-- The MACD-signal series (EWMA of the MACD line with the signal span). -/
def macdSignal (m : MACD) (d : PyDataset) : List ℚ :=
  ewmAdjust m.signal_span (macdLine m d)

/-- The MACD-histogram series (line minus signal, pointwise). -/
def macdHistogram (m : MACD) (d : PyDataset) : List ℚ :=
  List.zipWith (fun a b => a - b) (macdLine m d) (macdSignal m d)

namespace MACD

/-- The five sequential column writes performed by `MACD.__call__` on its
argument's dataframe.  (The code recomputes the line from the freshly stored
fast and slow columns and the signal from the stored line column; those reads
return exactly the series just written, so the stored series are the ones
named here.) -/
def augment (m : MACD) (d : PyDataset) : PyDataset :=
  { d with extraCols :=
      (updateAssoc MACD_HISTOGRAM (macdHistogram m d)
        (updateAssoc MACD_SIGNAL (macdSignal m d)
          (updateAssoc MACD_LINE (macdLine m d)
            (updateAssoc SLOW_EWMA (macdSlow m d)
              (updateAssoc FAST_EWMA (macdFast m d) d.extraCols))))) }

/-- `MACD.__call__`: check `is_valid`; if the field is absent return `None`
without computing anything, otherwise write the five derived columns into the
argument's dataframe and return that same (mutated) dataset. -/
def call (m : MACD) (d : PyDataset) : Option PyDataset :=
  if m.is_valid d then some (m.augment d) else none

end MACD

/-- Modelled from the spec (for comparison with the code's `ewmAdjust`): one
step of the claimed recursion `ewma_i = alpha * v_i + (1 - alpha) * ewma_(i-1)`. -/
def ewmaRecGo (alpha prev : ℚ) : List ℚ → List ℚ
  | [] => []
  | v :: vs => (alpha * v + (1 - alpha) * prev) :: ewmaRecGo alpha (alpha * v + (1 - alpha) * prev) vs

/-- Modelled from the spec (for comparison with the code's `ewmAdjust`): the
claimed recursive EWMA with `ewma_0 = v_0`. -/
def ewmaRecSpec (alpha : ℚ) : List ℚ → List ℚ
  | [] => []
  | v :: vs => v :: ewmaRecGo alpha v vs

/-- The weighted numerator of the pandas adjusted EWMA at index `i`:
`sum over j <= i of om^(i-j) * x_j`. -/
def ewmaWeightedNum (om : ℚ) (xs : List ℚ) (i : Nat) : ℚ :=
  ∑ j ∈ Finset.range (i + 1), om ^ (i - j) * xs.getD j 0

/-- The weighted denominator of the pandas adjusted EWMA at index `i`:
`sum over j <= i of om^j`. -/
def ewmaWeightedDen (om : ℚ) (i : Nat) : ℚ :=
  ∑ j ∈ Finset.range (i + 1), om ^ j

/-- The default value used when a heap index is out of range (never the case
in the concrete heaps used below). -/
def emptyDS : StockPriceDataset := StockPriceDataset.init "" []

/-- The empty dataframe state. -/
def emptyPy : PyDataset := { base := emptyDS, extraCols := [] }

/-- Python object heap of datasets, addressed by index.  `A += B` executes
`A.__iadd__(B)`, which reassigns `self.dataframe` and returns `self`: the
receiver's heap cell is overwritten and the returned reference is the
receiver's own. -/
def iaddS (σ : List StockPriceDataset) (i j : Nat) : Nat × List StockPriceDataset :=
  (i, σ.set i ((σ.getD i emptyDS).iadd (σ.getD j emptyDS)))

/-- `more_recent_than` allocates a fresh dataset object (via `__init__`) and
returns its reference; the heap cells of existing objects are untouched. -/
def more_recent_thanS (σ : List StockPriceDataset) (i : Nat) (a : Int) :
    Nat × List StockPriceDataset :=
  (σ.length, σ ++ [(σ.getD i emptyDS).more_recent_than a])

/-- `less_recent_than` on the heap, as `more_recent_thanS`. -/
def less_recent_thanS (σ : List StockPriceDataset) (i : Nat) (b : Int) :
    Nat × List StockPriceDataset :=
  (σ.length, σ ++ [(σ.getD i emptyDS).less_recent_than b])

/-- `_filter` on the heap, as `more_recent_thanS`. -/
def filterS (σ : List StockPriceDataset) (i : Nat) (p : Record → Bool) :
    Nat × List StockPriceDataset :=
  (σ.length, σ ++ [(σ.getD i emptyDS).filterDataset p])

/-- `MACD.__call__` on a heap of dataframe states: on success the argument's
own cell is overwritten with the augmented state and the argument's reference
is returned; on failure (`None`) the heap is untouched. -/
def macdS (m : MACD) (π : List PyDataset) (k : Nat) : Option Nat × List PyDataset :=
  if m.is_valid (π.getD k emptyPy) then
    (some k, π.set k (m.augment (π.getD k emptyPy)))
  else (none, π)

/-- `VALID_INTERVALS` from `stock_price_data.py`. -/
def VALID_INTERVALS : List String := ["1d", "1wk", "1mo"]

/-- The keyword-argument dictionaries `{"days": 1}`, `{"weeks": 1}`,
`{"months": 1}` zipped against the intervals in `VALID_INTERVAL_TIMEDELTAS`. -/
inductive TimedeltaKwargs where
  | days (n : Nat)
  | weeks (n : Nat)
  | months (n : Nat)
deriving DecidableEq

/-- The dict `VALID_INTERVAL_TIMEDELTAS` from `stock_price_data.py`. -/
def VALID_INTERVAL_TIMEDELTAS (interval : String) : Option TimedeltaKwargs :=
  if interval = "1d" then some (TimedeltaKwargs.days 1)
  else if interval = "1wk" then some (TimedeltaKwargs.weeks 1)
  else if interval = "1mo" then some (TimedeltaKwargs.months 1)
  else none

/-- `datetime.timedelta(**kwargs)`, returning the delta in days.
`datetime.timedelta` accepts `days` and `weeks` keywords but has NO `months`
keyword: `timedelta(months=1)` raises a `TypeError` before anything else
happens. -/
def timedelta : TimedeltaKwargs → Except String Int
  | TimedeltaKwargs.days n => Except.ok (n : Int)
  | TimedeltaKwargs.weeks n => Except.ok (7 * (n : Int))
  | TimedeltaKwargs.months _ =>
    Except.error "TypeError: months is an invalid keyword argument for timedelta"

/-- What `from_yahoo_finance` does up to the external boundary: either no
network call is made and an empty dataset is returned, or a remote call with
the given parameters is issued. -/
inductive FetchOutcome where
  | emptyDataset (ds : StockPriceDataset)
  | remoteCall (symbol : String) (start stop : Int) (interval : String)
deriving DecidableEq

/-- `StockPriceDataset.from_yahoo_finance` up to the external HTTP call:
validate the interval, advance `start` by `timedelta(**VALID_INTERVAL_TIMEDELTAS[interval])`,
and return an empty dataset without any call when the advanced start reaches
`end`; otherwise issue the remote call with the advanced start. -/
def from_yahoo_finance (symbol : String) (start stop : Int) (interval : String) :
    Except String FetchOutcome :=
  if interval ∉ VALID_INTERVALS then Except.error ("Invalid interval: " ++ interval)
  else
    match VALID_INTERVAL_TIMEDELTAS interval with
    | none => Except.error ("Invalid interval: " ++ interval)
    | some kw =>
      match timedelta kw with
      | Except.error e => Except.error e
      | Except.ok delta =>
        if start + delta ≥ stop then
          Except.ok (FetchOutcome.emptyDataset (StockPriceDataset.init symbol []))
        else
          Except.ok (FetchOutcome.remoteCall symbol (start + delta) stop interval)

/-- The default MACD configuration (`field="Close"`, spans 12/26/9). -/
def macdDefault : MACD :=
  { field := "Close", fast_ewma_span := 12, slow_ewma_span := 26, signal_span := 9 }

/-- A concrete two-row dataframe whose `Close` column is `[0, 1]`. -/
def pyTwo : PyDataset :=
  { base := StockPriceDataset.init "PNG.V"
      [{ date := 1, open_ := 0, high := 0, close := 0, low := 0, volume := 0 },
       { date := 2, open_ := 1, high := 1, close := 1, low := 1, volume := 1 }],
    extraCols := [] }

namespace StockPriceDataset

theorem dedupGo_not_seen :
    ∀ (l : List Record) (seen : List Int), ∀ r ∈ dedupGo seen l, r.date ∉ seen := by
  intro l
  induction l with
  | nil => intro seen r hr; simp [dedupGo] at hr
  | cons a as ih =>
    intro seen r hr
    by_cases ha : a.date ∈ seen
    · rw [dedupGo, if_pos ha] at hr
      exact ih seen r hr
    · rw [dedupGo, if_neg ha] at hr
      rcases List.mem_cons.mp hr with h | h
      · exact h ▸ ha
      · have := ih (a.date :: seen) r h
        exact fun hmem => this (List.mem_cons_of_mem _ hmem)

theorem dedupGo_datesUnique :
    ∀ (l : List Record) (seen : List Int), DatesUnique (dedupGo seen l) := by
  intro l
  induction l with
  | nil => intro seen; simp [dedupGo, DatesUnique]
  | cons a as ih =>
    intro seen
    by_cases ha : a.date ∈ seen
    · rw [dedupGo, if_pos ha]; exact ih seen
    · rw [dedupGo, if_neg ha]
      refine List.Pairwise.cons ?_ (ih (a.date :: seen))
      intro r hr heq
      have := dedupGo_not_seen as (a.date :: seen) r hr
      exact this (heq ▸ List.mem_cons_self _ _)

theorem dedupGo_eq_self :
    ∀ (l : List Record) (seen : List Int), DatesUnique l →
      (∀ r ∈ l, r.date ∉ seen) → dedupGo seen l = l := by
  intro l
  induction l with
  | nil => intro seen _ _; rfl
  | cons a as ih =>
    intro seen hu hs
    have ha : a.date ∉ seen := hs a (List.mem_cons_self _ _)
    rw [dedupGo, if_neg ha]
    have hu' : DatesUnique as := (List.pairwise_cons.mp hu).2
    have hhead : ∀ r ∈ as, a.date ≠ r.date := (List.pairwise_cons.mp hu).1
    have hs' : ∀ r ∈ as, r.date ∉ a.date :: seen := by
      intro r hr hmem
      rcases List.mem_cons.mp hmem with h | h
      · exact hhead r hr h.symm
      · exact hs r (List.mem_cons_of_mem _ hr) h
    rw [ih (a.date :: seen) hu' hs']

theorem dedupGo_append :
    ∀ (l m : List Record) (seen : List Int),
      dedupGo seen (l ++ m) = dedupGo seen l ++ dedupGo (seenAfter seen l) m := by
  intro l
  induction l with
  | nil => intro m seen; rfl
  | cons a as ih =>
    intro m seen
    by_cases ha : a.date ∈ seen
    · rw [List.cons_append, dedupGo, if_pos ha, dedupGo, if_pos ha, seenAfter, if_pos ha]
      exact ih m seen
    · rw [List.cons_append, dedupGo, if_neg ha, dedupGo, if_neg ha, seenAfter, if_neg ha]
      rw [ih m (a.date :: seen), List.cons_append]

theorem mem_seenAfter :
    ∀ (l : List Record) (seen : List Int) (d : Int),
      d ∈ seenAfter seen l ↔ d ∈ seen ∨ d ∈ l.map (fun r => r.date) := by
  intro l
  induction l with
  | nil => intro seen d; simp [seenAfter]
  | cons a as ih =>
    intro seen d
    by_cases ha : a.date ∈ seen
    · rw [seenAfter, if_pos ha, ih]
      simp only [List.map_cons, List.mem_cons]
      constructor
      · rintro (h | h)
        · exact Or.inl h
        · exact Or.inr (Or.inr h)
      · rintro (h | h | h)
        · exact Or.inl h
        · exact Or.inl (h ▸ ha)
        · exact Or.inr h
    · rw [seenAfter, if_neg ha, ih]
      simp only [List.map_cons, List.mem_cons]
      tauto

theorem dedupGo_eq_nil_of_seen :
    ∀ (m : List Record) (seen : List Int),
      (∀ r ∈ m, r.date ∈ seen) → dedupGo seen m = [] := by
  intro m
  induction m with
  | nil => intro seen _; rfl
  | cons a as ih =>
    intro seen h
    rw [dedupGo, if_pos (h a (List.mem_cons_self _ _))]
    exact ih seen fun r hr => h r (List.mem_cons_of_mem _ hr)

theorem date_mem_dedupGo :
    ∀ (l : List Record) (seen : List Int) (d : Int),
      d ∈ l.map (fun r => r.date) →
      d ∈ seen ∨ d ∈ (dedupGo seen l).map (fun r => r.date) := by
  intro l
  induction l with
  | nil => intro seen d h; simp at h
  | cons a as ih =>
    intro seen d h
    rw [List.map_cons] at h
    rcases List.mem_cons.mp h with h | h
    · by_cases ha : a.date ∈ seen
      · exact Or.inl (h ▸ ha)
      · rw [dedupGo, if_neg ha, List.map_cons]
        exact Or.inr (h ▸ List.mem_cons_self _ _)
    · by_cases ha : a.date ∈ seen
      · rw [dedupGo, if_pos ha]
        exact ih seen d h
      · rw [dedupGo, if_neg ha]
        rcases ih (a.date :: seen) d h with h' | h'
        · rcases List.mem_cons.mp h' with h'' | h''
          · rw [List.map_cons]
            exact Or.inr (h'' ▸ List.mem_cons_self _ _)
          · exact Or.inl h''
        · rw [List.map_cons]
          exact Or.inr (List.mem_cons_of_mem _ h')

theorem mem_of_mem_dedupGo :
    ∀ (l : List Record) (seen : List Int), ∀ r ∈ dedupGo seen l, r ∈ l := by
  intro l
  induction l with
  | nil => intro seen r hr; simp [dedupGo] at hr
  | cons a as ih =>
    intro seen r hr
    by_cases ha : a.date ∈ seen
    · rw [dedupGo, if_pos ha] at hr
      exact List.mem_cons_of_mem _ (ih seen r hr)
    · rw [dedupGo, if_neg ha] at hr
      rcases List.mem_cons.mp hr with h | h
      · exact h ▸ List.mem_cons_self _ _
      · exact List.mem_cons_of_mem _ (ih (a.date :: seen) r h)

theorem dedupGo_sublist :
    ∀ (l : List Record) (seen : List Int), (dedupGo seen l).Sublist l := by
  intro l
  induction l with
  | nil => intro seen; simp [dedupGo]
  | cons a as ih =>
    intro seen
    by_cases ha : a.date ∈ seen
    · rw [dedupGo, if_pos ha]
      exact (ih seen).cons a
    · rw [dedupGo, if_neg ha]
      exact (ih (a.date :: seen)).cons₂ a

theorem lookupDate_append (d : Int) :
    ∀ (l m : List Record),
      lookupDate d (l ++ m) =
        match lookupDate d l with
        | some r => some r
        | none => lookupDate d m := by
  intro l
  induction l with
  | nil => intro m; rfl
  | cons a as ih =>
    intro m
    by_cases ha : a.date = d
    · simp [lookupDate, ha]
    · simp only [List.cons_append, lookupDate, if_neg ha]
      exact ih m

theorem lookupDate_dedupGo (d : Int) :
    ∀ (l : List Record) (seen : List Int), d ∉ seen →
      lookupDate d (dedupGo seen l) = lookupDate d l := by
  intro l
  induction l with
  | nil => intro seen _; rfl
  | cons a as ih =>
    intro seen hd
    by_cases ha : a.date ∈ seen
    · have hne : a.date ≠ d := fun h => hd (h ▸ ha)
      rw [dedupGo, if_pos ha, lookupDate, if_neg hne]
      exact ih seen hd
    · rw [dedupGo, if_neg ha]
      by_cases had : a.date = d
      · rw [lookupDate, if_pos had, lookupDate, if_pos had]
      · rw [lookupDate, if_neg had, lookupDate, if_neg had]
        refine ih (a.date :: seen) ?_
        intro hmem
        rcases List.mem_cons.mp hmem with h | h
        · exact had h.symm
        · exact hd h

end StockPriceDataset

namespace StockPriceDataset

theorem dedup_append_self (lA lB : List Record) :
    dedupByDate (dedupByDate (lA ++ lB) ++ lB) = dedupByDate (lA ++ lB) := by
  have h1 : dedupGo [] (dedupByDate (lA ++ lB)) = dedupByDate (lA ++ lB) := by
    refine dedupGo_eq_self _ [] (dedupGo_datesUnique _ _) ?_
    intro r _
    exact List.not_mem_nil _
  have h2 : dedupGo (seenAfter [] (dedupByDate (lA ++ lB))) lB = [] := by
    apply dedupGo_eq_nil_of_seen
    intro r hr
    rw [mem_seenAfter]
    right
    have hmem : r.date ∈ (lA ++ lB).map (fun r => r.date) := by
      rw [List.map_append]
      exact List.mem_append_right _ (List.mem_map_of_mem _ hr)
    rcases date_mem_dedupGo (lA ++ lB) [] r.date hmem with h | h
    · exact absurd h (List.not_mem_nil _)
    · exact h
  rw [dedupByDate, dedupGo_append, h1, h2, List.append_nil]

end StockPriceDataset

/-- C1: the merge `A.combine(B)` (Python `__iadd__`) produces the date-keyed
union of the two row tables restricted to one row per date, and on any date
present in both operands the surviving row is the left operand's: looking up
any date in the merged table gives the left operand's row for that date when
one exists and otherwise the right operand's; the merged table has pairwise
distinct dates; and every merged row comes from one of the two operands. -/
theorem merge_left_biased_union (A B : StockPriceDataset) (d : Int) :
    lookupDate d (A.iadd B).records =
      (match lookupDate d A.records with
       | some r => some r
       | none => lookupDate d B.records) ∧
    DatesUnique (A.iadd B).records ∧
    (∀ r ∈ (A.iadd B).records, r ∈ A.records ∨ r ∈ B.records) := by
  refine ⟨?_, StockPriceDataset.dedupGo_datesUnique _ _, ?_⟩
  · show lookupDate d (StockPriceDataset.dedupByDate (A.records ++ B.records)) = _
    rw [StockPriceDataset.dedupByDate,
      StockPriceDataset.lookupDate_dedupGo d _ [] (List.not_mem_nil _),
      StockPriceDataset.lookupDate_append]
  · intro r hr
    exact List.mem_append.mp (StockPriceDataset.mem_of_mem_dedupGo _ _ r hr)

/-- Witness for C1 at a concrete input: the merged dataset of `dsA` and `dsB`
contains the row dated 5, and that row indeed comes from one of the operands. -/
theorem merge_left_biased_union_witness :
    recAt 5 ∈ (dsA.iadd dsB).records ∧ (recAt 5 ∈ dsA.records ∨ recAt 5 ∈ dsB.records) :=
  ⟨by decide, (merge_left_biased_union dsA dsB 0).2.2 (recAt 5) (by decide)⟩

/-- C3 counterexample: merging the dataset whose single row is dated 5 with
the dataset whose single row is dated 4 yields the row table `[5, 4]`, which
is not sorted by ascending date — `__iadd__` never re-sorts. -/
theorem merge_result_not_sorted :
    ¬ SortedByDate ((dsA.iadd dsB).records) := by
  decide

/-- C3 as amended: after any merge the at-most-one-row-per-date invariant does
hold, and the merged table is a sublist of the concatenation
`A.records ++ B.records` (left rows first, in order), so it is sorted by
ascending date only when that concatenation already is; the merge itself
performs no re-sort. -/
theorem merge_unique_dates_not_resorted (A B : StockPriceDataset) :
    DatesUnique (A.iadd B).records ∧
    ((A.iadd B).records).Sublist (A.records ++ B.records) ∧
    (SortedByDate (A.records ++ B.records) → SortedByDate (A.iadd B).records) := by
  refine ⟨StockPriceDataset.dedupGo_datesUnique _ _,
    StockPriceDataset.dedupGo_sublist _ _, ?_⟩
  intro hs
  exact List.Pairwise.sublist (StockPriceDataset.dedupGo_sublist _ _) hs

/-- Witness for C3-as-amended at a concrete input: merging the row dated 4
with the row dated 5 (already in ascending order) keeps the result sorted. -/
theorem merge_unique_dates_not_resorted_witness :
    SortedByDate (dsB.records ++ dsA.records) ∧ SortedByDate ((dsB.iadd dsA).records) :=
  ⟨by decide, (merge_unique_dates_not_resorted dsB dsA).2.2 (by decide)⟩

/-- C8: merging the same batch twice is idempotent —
`A.combine(B).combine(B)` equals `A.combine(B)` exactly (same symbol, same
rows in the same order, same memo fields). -/
theorem merge_idempotent (A B : StockPriceDataset) : (A.iadd B).iadd B = A.iadd B := by
  simp only [StockPriceDataset.iadd]
  rw [StockPriceDataset.dedup_append_self]

theorem sortByDate_perm (l : List Record) : (sortByDate l).Perm l :=
  List.perm_insertionSort dateLe l

theorem sortByDate_sorted (l : List Record) : SortedByDate (sortByDate l) :=
  List.sorted_insertionSort dateLe l

theorem mem_of_getLast?' :
    ∀ (l : List Record) (b : Record), l.getLast? = some b → b ∈ l := by
  intro l
  induction l with
  | nil => intro b h; cases h
  | cons x xs ih =>
    intro b h
    cases xs with
    | nil =>
      simp only [List.getLast?_singleton, Option.some.injEq] at h
      exact h ▸ List.mem_cons_self _ _
    | cons y ys =>
      rw [List.getLast?_cons_cons] at h
      exact List.mem_cons_of_mem _ (ih b h)

theorem getLast?_cons_ne_none :
    ∀ (x : Record) (xs : List Record), (x :: xs).getLast? ≠ none := by
  intro x xs
  induction xs generalizing x with
  | nil => simp
  | cons y ys ih =>
    rw [List.getLast?_cons_cons]
    exact ih y

theorem sorted_head_le_getLast :
    ∀ (l : List Record), SortedByDate l → ∀ a b, l.head? = some a → l.getLast? = some b →
      a.date ≤ b.date := by
  intro l
  induction l with
  | nil => intro _ a b h; cases h
  | cons x xs _ =>
    intro hs a b ha hb
    have hax : a = x := by
      simp only [List.head?_cons, Option.some.injEq] at ha
      exact ha.symm
    subst hax
    cases xs with
    | nil =>
      simp only [List.getLast?_singleton, Option.some.injEq] at hb
      exact hb ▸ le_refl _
    | cons y ys =>
      rw [List.getLast?_cons_cons] at hb
      have hbmem : b ∈ y :: ys := mem_of_getLast?' _ b hb
      exact (List.pairwise_cons.mp hs).1 b hbmem

theorem interval_perm (A : StockPriceDataset) (a b : Int) :
    ((A.more_recent_than a).less_recent_than b).records.Perm
      (A.records.filter (fun s => decide (a ≤ s.date ∧ s.date ≤ b))) := by
  have h1 : ((A.more_recent_than a).less_recent_than b).records.Perm
      (((A.more_recent_than a).records).filter (fun r => decide (r.date ≤ b))) :=
    List.perm_insertionSort dateLe _
  have h2 : ((A.more_recent_than a).records).Perm
      ((A.records).filter (fun r => decide (a ≤ r.date))) :=
    List.perm_insertionSort dateLe _
  have h3 := h2.filter (fun r => decide (r.date ≤ b))
  have h4 : ((A.records).filter (fun r => decide (a ≤ r.date))).filter
        (fun r => decide (r.date ≤ b))
      = A.records.filter (fun s => decide (a ≤ s.date ∧ s.date ≤ b)) := by
    rw [List.filter_filter]
    refine List.filter_congr ?_
    intro s _
    rw [Bool.eq_iff_iff]
    simp only [Bool.and_eq_true, decide_eq_true_eq]
    tauto
  exact (h1.trans h3).trans (h4 ▸ List.Perm.refl _)

/-- C6: `more_recent_than(a)` keeps exactly the rows dated `>= a`,
`less_recent_than(b)` exactly the rows dated `<= b`, their composition keeps
exactly the rows in the closed interval `[a, b]`; an empty result is an
ordinary dataset value obtained exactly when no row satisfies the bound; and
the composition at a single date `d` returns exactly the one row dated `d`
when the dataset holds exactly one such row, and the empty table when it
holds none. -/
theorem range_filters_exact (A : StockPriceDataset) (a b d : Int) (r : Record) :
    (∀ s, s ∈ (A.more_recent_than a).records ↔ s ∈ A.records ∧ a ≤ s.date) ∧
    (∀ s, s ∈ (A.less_recent_than b).records ↔ s ∈ A.records ∧ s.date ≤ b) ∧
    (∀ s, s ∈ ((A.more_recent_than a).less_recent_than b).records ↔
      s ∈ A.records ∧ a ≤ s.date ∧ s.date ≤ b) ∧
    ((A.more_recent_than a).records = [] ↔ ∀ s ∈ A.records, ¬ a ≤ s.date) ∧
    (A.records.filter (fun s => s.date == d) = [r] →
      ((A.more_recent_than d).less_recent_than d).records = [r]) ∧
    ((∀ s ∈ A.records, s.date ≠ d) →
      ((A.more_recent_than d).less_recent_than d).records = []) := by
  have hmore : ∀ s, s ∈ (A.more_recent_than a).records ↔ s ∈ A.records ∧ a ≤ s.date := by
    intro s
    show s ∈ sortByDate (A.records.filter fun r => decide (a ≤ r.date)) ↔ _
    rw [(sortByDate_perm _).mem_iff, List.mem_filter, decide_eq_true_eq]
  have hinterval : ∀ (x y : Int) (s : Record),
      s ∈ ((A.more_recent_than x).less_recent_than y).records ↔
        s ∈ A.records ∧ x ≤ s.date ∧ s.date ≤ y := by
    intro x y s
    rw [(interval_perm A x y).mem_iff, List.mem_filter, decide_eq_true_eq]
  refine ⟨hmore, ?_, hinterval a b, ?_, ?_, ?_⟩
  · intro s
    show s ∈ sortByDate (A.records.filter fun r => decide (r.date ≤ b)) ↔ _
    rw [(sortByDate_perm _).mem_iff, List.mem_filter, decide_eq_true_eq]
  · constructor
    · intro h s hs ha
      have : s ∈ (A.more_recent_than a).records := (hmore s).mpr ⟨hs, ha⟩
      rw [h] at this
      exact List.not_mem_nil _ this
    · intro h
      have hfil : A.records.filter (fun r => decide (a ≤ r.date)) = [] := by
        rw [List.filter_eq_nil_iff]
        intro s hs
        simpa using h s hs
      show sortByDate (A.records.filter fun r => decide (a ≤ r.date)) = []
      rw [hfil]
      rfl
  · intro hone
    have hcongr : A.records.filter (fun s => decide (d ≤ s.date ∧ s.date ≤ d))
        = A.records.filter (fun s => s.date == d) := by
      refine List.filter_congr ?_
      intro s _
      rw [Bool.eq_iff_iff]
      simp only [decide_eq_true_eq, beq_iff_eq]
      omega
    have hperm := interval_perm A d d
    rw [hcongr, hone] at hperm
    exact List.perm_singleton.mp hperm
  · intro hnone
    have hfil : A.records.filter (fun s => decide (d ≤ s.date ∧ s.date ≤ d)) = [] := by
      rw [List.filter_eq_nil_iff]
      intro s hs
      have := hnone s hs
      simp only [decide_eq_true_eq]
      omega
    have hperm := interval_perm A d d
    rw [hfil] at hperm
    exact hperm.eq_nil

/-- Witness for C6 at a concrete input: the dataset `dsA` holds exactly one
row dated 5, and the composed filters at date 5 return exactly that row. -/
theorem range_filters_exact_witness :
    (dsA.records.filter (fun s => s.date == 5) = [recAt 5]) ∧
    ((dsA.more_recent_than 5).less_recent_than 5).records = [recAt 5] :=
  ⟨by decide, (range_filters_exact dsA 0 0 5 (recAt 5)).2.2.2.2.1 (by decide)⟩

/-- C5 counterexample: for the merge of the row dated 5 with the row dated 4
(a dataset produced by a merge, with two rows), `earliest_date` reports 5 and
`latest_date` reports 4, while the first and last rows in sorted order are
dated 4 and 5 — so `earliest_date` is not the date of the first record in
sorted order, `latest_date` is not the date of the last, and
`earliest_date <= latest_date` fails on a non-empty dataset. -/
theorem merged_dataset_dates_misreported :
    (dsA.iadd dsB).earliest_date = some 5 ∧
    (dsA.iadd dsB).latest_date = some 4 ∧
    ((sortByDate (dsA.iadd dsB).records).head?.map (fun r => r.date) = some 4) ∧
    ((sortByDate (dsA.iadd dsB).records).getLast?.map (fun r => r.date) = some 5) ∧
    ¬ ((5 : Int) ≤ 4) := by
  decide

/-- C5 as amended: for every dataset built by the constructor — which covers
the results of the range and point filters, all of which rebuild through
`__init__` with fresh memo fields — the rows are sorted, `earliest_date` is
the date of the first (hence least) row and is absent exactly on the empty
batch, `latest_date` is the date of the last (hence greatest) row and is
absent exactly on the empty batch, and `earliest_date <= latest_date`.  For a
dataset produced by `__iadd__` these properties can fail, because the merge
neither re-sorts the rows nor clears the memo fields (see the counterexample). -/
theorem constructed_dataset_date_bounds (sym : String) (batch : List Record) :
    SortedByDate (StockPriceDataset.init sym batch).records ∧
    ((StockPriceDataset.init sym batch).earliest_date =
      ((StockPriceDataset.init sym batch).records.head?).map (fun r => r.date)) ∧
    ((StockPriceDataset.init sym batch).latest_date =
      ((StockPriceDataset.init sym batch).records.getLast?).map (fun r => r.date)) ∧
    ((StockPriceDataset.init sym batch).earliest_date = none ↔ batch = []) ∧
    ((StockPriceDataset.init sym batch).latest_date = none ↔ batch = []) ∧
    (∀ d₁ d₂, (StockPriceDataset.init sym batch).earliest_date = some d₁ →
      (StockPriceDataset.init sym batch).latest_date = some d₂ → d₁ ≤ d₂) := by
  have hlen : (sortByDate batch).length = batch.length := (sortByDate_perm batch).length_eq
  have hnil : sortByDate batch = [] ↔ batch = [] := by
    constructor
    · intro h
      have h0 : batch.length = 0 := by
        rw [← hlen, h]
        rfl
      exact List.length_eq_zero.mp h0
    · intro h
      rw [h]
      rfl
  have hearliest : (StockPriceDataset.init sym batch).earliest_date =
      ((sortByDate batch).head?).map (fun r => r.date) := by
    have hdef : (StockPriceDataset.init sym batch).earliest_date =
        (if 0 < (sortByDate batch).length
          then ((sortByDate batch).head?).map (fun r => r.date) else none) := rfl
    rw [hdef]
    cases hsb : sortByDate batch with
    | nil => rfl
    | cons x xs =>
      have hx : 0 < (x :: xs).length := Nat.succ_pos _
      rw [if_pos hx]
  have hlatest : (StockPriceDataset.init sym batch).latest_date =
      ((sortByDate batch).getLast?).map (fun r => r.date) := by
    have hdef : (StockPriceDataset.init sym batch).latest_date =
        (if 0 < (sortByDate batch).length
          then ((sortByDate batch).getLast?).map (fun r => r.date) else none) := rfl
    rw [hdef]
    cases hsb : sortByDate batch with
    | nil => rfl
    | cons x xs =>
      have hx : 0 < (x :: xs).length := Nat.succ_pos _
      rw [if_pos hx]
  refine ⟨sortByDate_sorted batch, hearliest, hlatest, ?_, ?_, ?_⟩
  · rw [hearliest, ← hnil]
    cases hsb : sortByDate batch with
    | nil => simp
    | cons x xs => simp
  · rw [hlatest, ← hnil]
    cases hsb : sortByDate batch with
    | nil => simp
    | cons x xs =>
      simp only [Option.map_eq_none']
      constructor
      · intro h
        exact absurd h (getLast?_cons_ne_none x xs)
      · intro h
        cases h
  · intro d₁ d₂ h1 h2
    rw [hearliest] at h1
    rw [hlatest] at h2
    cases hh : (sortByDate batch).head? with
    | none => rw [hh] at h1; cases h1
    | some rh =>
      cases hl : (sortByDate batch).getLast? with
      | none => rw [hl] at h2; cases h2
      | some rl =>
        rw [hh] at h1
        rw [hl] at h2
        simp only [Option.map_some', Option.some.injEq] at h1 h2
        have := sorted_head_le_getLast (sortByDate batch) (sortByDate_sorted batch) rh rl hh hl
        omega

/-- Witness for C5-as-amended at a concrete input: a freshly constructed
two-row dataset reports earliest date 4 and latest date 5, and 4 is at most 5. -/
theorem constructed_dataset_date_bounds_witness :
    (StockPriceDataset.init "PNG.V" [recAt 5, recAt 4]).earliest_date = some 4 ∧
    (StockPriceDataset.init "PNG.V" [recAt 5, recAt 4]).latest_date = some 5 ∧
    (4 : Int) ≤ 5 :=
  ⟨by decide, by decide,
    (constructed_dataset_date_bounds "PNG.V" [recAt 5, recAt 4]).2.2.2.2.2 4 5
      (by decide) (by decide)⟩

theorem lookupAssoc_updateAssoc_self (k : String) (v : List ℚ) :
    ∀ l, lookupAssoc k (updateAssoc k v l) = some v := by
  intro l
  induction l with
  | nil =>
    simp [updateAssoc, lookupAssoc]
  | cons c rest ih =>
    by_cases hc : c.1 = k
    · simp only [updateAssoc]
      rw [if_pos hc]
      simp [lookupAssoc]
    · simp only [updateAssoc]
      rw [if_neg hc]
      simp only [lookupAssoc]
      rw [if_neg hc]
      exact ih

theorem lookupAssoc_updateAssoc_ne (kq k : String) (v : List ℚ) (h : kq ≠ k) :
    ∀ l, lookupAssoc kq (updateAssoc k v l) = lookupAssoc kq l := by
  intro l
  induction l with
  | nil =>
    simp only [updateAssoc, lookupAssoc]
    rw [if_neg (fun hh => h hh.symm)]
  | cons c rest ih =>
    by_cases hc : c.1 = k
    · simp only [updateAssoc]
      rw [if_pos hc]
      simp only [lookupAssoc]
      have hck : ¬(c.1 = kq) := by
        rw [hc]
        exact fun hh => h hh.symm
      rw [if_neg (fun hh : k = kq => h hh.symm), if_neg hck]
    · simp only [updateAssoc]
      rw [if_neg hc]
      simp only [lookupAssoc]
      by_cases hq : c.1 = kq
      · rw [if_pos hq, if_pos hq]
      · rw [if_neg hq, if_neg hq]
        exact ih

theorem ewmAdjustGo_length (om : ℚ) :
    ∀ (xs : List ℚ) (num den : ℚ), (ewmAdjustGo om num den xs).length = xs.length := by
  intro xs
  induction xs with
  | nil => intro num den; rfl
  | cons x xs ih =>
    intro num den
    simp only [ewmAdjustGo, List.length_cons, ih]

theorem ewmAdjust_length (span : Nat) (xs : List ℚ) :
    (ewmAdjust span xs).length = xs.length :=
  ewmAdjustGo_length _ xs 0 0

theorem getD_zipWith_sub :
    ∀ (l m : List ℚ) (i : Nat), i < l.length → i < m.length →
      (List.zipWith (fun a b => a - b) l m).getD i 0 = l.getD i 0 - m.getD i 0 := by
  intro l
  induction l with
  | nil => intro m i h _; exact absurd h (by simp)
  | cons x xs ih =>
    intro m i h1 h2
    cases m with
    | nil => exact absurd h2 (by simp)
    | cons y ys =>
      cases i with
      | zero => rfl
      | succ n =>
        simp only [List.zipWith_cons_cons, List.getD_cons_succ]
        exact ih ys n (Nat.lt_of_succ_lt_succ h1) (Nat.lt_of_succ_lt_succ h2)

theorem ewmAdjustGo_getD (om : ℚ) :
    ∀ (xs : List ℚ) (num den : ℚ) (i : Nat), i < xs.length →
      (ewmAdjustGo om num den xs).getD i 0 =
        (om ^ (i + 1) * num + ewmaWeightedNum om xs i) /
          (om ^ (i + 1) * den + ewmaWeightedDen om i) := by
  intro xs
  induction xs with
  | nil => intro num den i h; exact absurd h (by simp)
  | cons x xs ih =>
    intro num den i h
    cases i with
    | zero =>
      have hn : ewmaWeightedNum om (x :: xs) 0 = x := by
        simp [ewmaWeightedNum, Finset.sum_range_one]
      have hd : ewmaWeightedDen om 0 = 1 := by
        simp [ewmaWeightedDen, Finset.sum_range_one]
      rw [show (ewmAdjustGo om num den (x :: xs)).getD 0 0 =
        (om * num + x) / (om * den + 1) from rfl]
      rw [hn, hd, pow_one]
    | succ n =>
      have hn : n < xs.length := Nat.lt_of_succ_lt_succ (by simpa using h)
      rw [show (ewmAdjustGo om num den (x :: xs)).getD (n + 1) 0 =
        (ewmAdjustGo om (om * num + x) (om * den + 1) xs).getD n 0 from rfl]
      rw [ih (om * num + x) (om * den + 1) n hn]
      have hnum : ewmaWeightedNum om (x :: xs) (n + 1) =
          ewmaWeightedNum om xs n + om ^ (n + 1) * x := by
        rw [ewmaWeightedNum, ewmaWeightedNum, Finset.sum_range_succ']
        have hcong : ∀ j ∈ Finset.range (n + 1),
            om ^ (n + 1 - (j + 1)) * (x :: xs).getD (j + 1) 0 =
              om ^ (n - j) * xs.getD j 0 := by
          intro j _
          have hsub : n + 1 - (j + 1) = n - j := by omega
          rw [hsub, List.getD_cons_succ]
        rw [Finset.sum_congr rfl hcong]
        simp
      have hdenTop : ewmaWeightedDen om (n + 1) = ewmaWeightedDen om n + om ^ (n + 1) := by
        rw [ewmaWeightedDen, ewmaWeightedDen, Finset.sum_range_succ]
      rw [hnum, hdenTop]
      congr 1 <;> ring

theorem ewmAdjust_getD (span : Nat) (xs : List ℚ) (i : Nat) (h : i < xs.length) :
    (ewmAdjust span xs).getD i 0 =
      ewmaWeightedNum (1 - 2 / ((span : ℚ) + 1)) xs i /
        ewmaWeightedDen (1 - 2 / ((span : ℚ) + 1)) i := by
  rw [ewmAdjust, ewmAdjustGo_getD _ xs 0 0 i h]
  rw [mul_zero, zero_add, zero_add]

/-- C2 counterexample: on the concrete `Close` series `[0, 1]` with the
default fast span 12, the code's fast EWMA — pandas `ewm(span=12).mean()`
with its default `adjust=True` — produces `[0, 13/24]`, while the spec's
recursion `ewma_0 = v_0`, `ewma_i = α·v_i + (1-α)·ewma_(i-1)` with
`α = 2/(12+1)` produces `[0, 2/13]`; the code's series does not satisfy the
claimed recurrence. -/
theorem macd_fast_ewma_not_spec_recursion :
    macdSourceValues macdDefault pyTwo = [0, 1] ∧
    macdFast macdDefault pyTwo = [0, 13 / 24] ∧
    ewmaRecSpec (2 / ((12 : ℚ) + 1)) [0, 1] = [0, 2 / 13] ∧
    macdFast macdDefault pyTwo ≠
      ewmaRecSpec (2 / ((macdDefault.fast_ewma_span : ℚ) + 1))
        (macdSourceValues macdDefault pyTwo) := by
  have hsrc : macdSourceValues macdDefault pyTwo = [0, 1] := by decide
  have hfast : macdFast macdDefault pyTwo = [0, 13 / 24] := by
    simp only [macdFast, hsrc]
    norm_num [ewmAdjust, ewmAdjustGo, macdDefault]
  have hrec : ewmaRecSpec (2 / ((12 : ℚ) + 1)) [0, 1] = [0, 2 / 13] := by
    norm_num [ewmaRecSpec, ewmaRecGo]
  refine ⟨hsrc, hfast, hrec, ?_⟩
  have hspan : ((macdDefault.fast_ewma_span : ℚ)) = 12 := by norm_num [macdDefault]
  rw [hsrc, hfast, hspan, hrec]
  intro hEq
  simp only [List.cons.injEq, and_true, true_and] at hEq
  norm_num at hEq

/-- C2 as amended: whenever the source field is present, the computation
stores five series aligned one-to-one with the input rows (equal lengths, no
warm-up drop); the fast and slow series are the pandas ADJUSTED EWMAs of the
source values — at every index `i` the value is
`(Σ_(j≤i) ω^(i-j)·v_j) / (Σ_(j≤i) ω^j)` with `ω = 1 − 2/(span+1)`, which
agrees with the claimed recursion at index 0 (`ewma_0 = v_0`) but not beyond;
the MACD line is fast minus slow pointwise; the signal is the adjusted EWMA
of the line with the signal span; and the histogram is line minus signal
pointwise. -/
theorem macd_series_adjusted_characterization (m : MACD) (d : PyDataset)
    (h : m.field ∈ pyColumns d) :
    MACD.call m d = some (MACD.augment m d) ∧
    lookupAssoc MACD.FAST_EWMA (MACD.augment m d).extraCols = some (macdFast m d) ∧
    lookupAssoc MACD.SLOW_EWMA (MACD.augment m d).extraCols = some (macdSlow m d) ∧
    lookupAssoc MACD.MACD_LINE (MACD.augment m d).extraCols = some (macdLine m d) ∧
    lookupAssoc MACD.MACD_SIGNAL (MACD.augment m d).extraCols = some (macdSignal m d) ∧
    lookupAssoc MACD.MACD_HISTOGRAM (MACD.augment m d).extraCols = some (macdHistogram m d) ∧
    (macdFast m d).length = (macdSourceValues m d).length ∧
    (macdSlow m d).length = (macdSourceValues m d).length ∧
    (macdLine m d).length = (macdSourceValues m d).length ∧
    (macdSignal m d).length = (macdSourceValues m d).length ∧
    (macdHistogram m d).length = (macdSourceValues m d).length ∧
    (∀ i, i < (macdSourceValues m d).length →
      (macdFast m d).getD i 0 =
        ewmaWeightedNum (1 - 2 / ((m.fast_ewma_span : ℚ) + 1)) (macdSourceValues m d) i /
          ewmaWeightedDen (1 - 2 / ((m.fast_ewma_span : ℚ) + 1)) i) ∧
    (∀ i, i < (macdSourceValues m d).length →
      (macdSlow m d).getD i 0 =
        ewmaWeightedNum (1 - 2 / ((m.slow_ewma_span : ℚ) + 1)) (macdSourceValues m d) i /
          ewmaWeightedDen (1 - 2 / ((m.slow_ewma_span : ℚ) + 1)) i) ∧
    (∀ i, i < (macdSourceValues m d).length →
      (macdLine m d).getD i 0 = (macdFast m d).getD i 0 - (macdSlow m d).getD i 0) ∧
    (∀ i, i < (macdSourceValues m d).length →
      (macdSignal m d).getD i 0 =
        ewmaWeightedNum (1 - 2 / ((m.signal_span : ℚ) + 1)) (macdLine m d) i /
          ewmaWeightedDen (1 - 2 / ((m.signal_span : ℚ) + 1)) i) ∧
    (∀ i, i < (macdSourceValues m d).length →
      (macdHistogram m d).getD i 0 = (macdLine m d).getD i 0 - (macdSignal m d).getD i 0) ∧
    (0 < (macdSourceValues m d).length →
      (macdFast m d).getD 0 0 = (macdSourceValues m d).getD 0 0) := by
  have hvalid : MACD.is_valid m d = true := decide_eq_true h
  have hlenfast : (macdFast m d).length = (macdSourceValues m d).length :=
    ewmAdjust_length _ _
  have hlenslow : (macdSlow m d).length = (macdSourceValues m d).length :=
    ewmAdjust_length _ _
  have hlenline : (macdLine m d).length = (macdSourceValues m d).length := by
    rw [macdLine, List.length_zipWith, hlenfast, hlenslow, Nat.min_self]
  have hlensig : (macdSignal m d).length = (macdSourceValues m d).length := by
    rw [macdSignal, ewmAdjust_length, hlenline]
  have hlenhist : (macdHistogram m d).length = (macdSourceValues m d).length := by
    rw [macdHistogram, List.length_zipWith, hlenline, hlensig, Nat.min_self]
  refine ⟨?_, ?_, ?_, ?_, ?_, ?_, hlenfast, hlenslow, hlenline, hlensig, hlenhist,
    ?_, ?_, ?_, ?_, ?_, ?_⟩
  · simp [MACD.call, hvalid]
  · show lookupAssoc MACD.FAST_EWMA
      (updateAssoc MACD.MACD_HISTOGRAM (macdHistogram m d)
        (updateAssoc MACD.MACD_SIGNAL (macdSignal m d)
          (updateAssoc MACD.MACD_LINE (macdLine m d)
            (updateAssoc MACD.SLOW_EWMA (macdSlow m d)
              (updateAssoc MACD.FAST_EWMA (macdFast m d) d.extraCols))))) =
      some (macdFast m d)
    rw [lookupAssoc_updateAssoc_ne _ _ _ (by decide),
      lookupAssoc_updateAssoc_ne _ _ _ (by decide),
      lookupAssoc_updateAssoc_ne _ _ _ (by decide),
      lookupAssoc_updateAssoc_ne _ _ _ (by decide),
      lookupAssoc_updateAssoc_self]
  · show lookupAssoc MACD.SLOW_EWMA
      (updateAssoc MACD.MACD_HISTOGRAM (macdHistogram m d)
        (updateAssoc MACD.MACD_SIGNAL (macdSignal m d)
          (updateAssoc MACD.MACD_LINE (macdLine m d)
            (updateAssoc MACD.SLOW_EWMA (macdSlow m d)
              (updateAssoc MACD.FAST_EWMA (macdFast m d) d.extraCols))))) =
      some (macdSlow m d)
    rw [lookupAssoc_updateAssoc_ne _ _ _ (by decide),
      lookupAssoc_updateAssoc_ne _ _ _ (by decide),
      lookupAssoc_updateAssoc_ne _ _ _ (by decide),
      lookupAssoc_updateAssoc_self]
  · show lookupAssoc MACD.MACD_LINE
      (updateAssoc MACD.MACD_HISTOGRAM (macdHistogram m d)
        (updateAssoc MACD.MACD_SIGNAL (macdSignal m d)
          (updateAssoc MACD.MACD_LINE (macdLine m d)
            (updateAssoc MACD.SLOW_EWMA (macdSlow m d)
              (updateAssoc MACD.FAST_EWMA (macdFast m d) d.extraCols))))) =
      some (macdLine m d)
    rw [lookupAssoc_updateAssoc_ne _ _ _ (by decide),
      lookupAssoc_updateAssoc_ne _ _ _ (by decide),
      lookupAssoc_updateAssoc_self]
  · show lookupAssoc MACD.MACD_SIGNAL
      (updateAssoc MACD.MACD_HISTOGRAM (macdHistogram m d)
        (updateAssoc MACD.MACD_SIGNAL (macdSignal m d)
          (updateAssoc MACD.MACD_LINE (macdLine m d)
            (updateAssoc MACD.SLOW_EWMA (macdSlow m d)
              (updateAssoc MACD.FAST_EWMA (macdFast m d) d.extraCols))))) =
      some (macdSignal m d)
    rw [lookupAssoc_updateAssoc_ne _ _ _ (by decide),
      lookupAssoc_updateAssoc_self]
  · show lookupAssoc MACD.MACD_HISTOGRAM
      (updateAssoc MACD.MACD_HISTOGRAM (macdHistogram m d)
        (updateAssoc MACD.MACD_SIGNAL (macdSignal m d)
          (updateAssoc MACD.MACD_LINE (macdLine m d)
            (updateAssoc MACD.SLOW_EWMA (macdSlow m d)
              (updateAssoc MACD.FAST_EWMA (macdFast m d) d.extraCols))))) =
      some (macdHistogram m d)
    rw [lookupAssoc_updateAssoc_self]
  · intro i hi
    exact ewmAdjust_getD _ _ i hi
  · intro i hi
    exact ewmAdjust_getD _ _ i hi
  · intro i hi
    have h1 : i < (macdFast m d).length := by rw [hlenfast]; exact hi
    have h2 : i < (macdSlow m d).length := by rw [hlenslow]; exact hi
    exact getD_zipWith_sub _ _ i h1 h2
  · intro i hi
    have h1 : i < (macdLine m d).length := by rw [hlenline]; exact hi
    exact ewmAdjust_getD _ _ i h1
  · intro i hi
    have h1 : i < (macdLine m d).length := by rw [hlenline]; exact hi
    have h2 : i < (macdSignal m d).length := by rw [hlensig]; exact hi
    exact getD_zipWith_sub _ _ i h1 h2
  · intro h0
    have h1 := ewmAdjust_getD m.fast_ewma_span (macdSourceValues m d) 0 h0
    show (ewmAdjust m.fast_ewma_span (macdSourceValues m d)).getD 0 0 =
      (macdSourceValues m d).getD 0 0
    rw [h1, ewmaWeightedNum, ewmaWeightedDen]
    simp [Finset.sum_range_one]

/-- Witness for C2-as-amended at a concrete input: the default configuration's
field `Close` is present in the concrete two-row dataframe, and the call
stores the augmented dataframe. -/
theorem macd_series_adjusted_characterization_witness :
    ("Close" ∈ pyColumns pyTwo) ∧
    MACD.call macdDefault pyTwo = some (MACD.augment macdDefault pyTwo) :=
  ⟨by decide, (macd_series_adjusted_characterization macdDefault pyTwo (by decide)).1⟩

/-- C7 counterexample: constructing a MACD indicator whose source field
`Bogus` is absent from the dataset schema nevertheless SUCCEEDS (with valid
spans 12 < 26) — `MACD.__init__` never looks at any dataset or schema, so
construction cannot fail on a missing source field. -/
theorem macd_construction_ignores_schema :
    MACD.init "Bogus" 12 26 9 =
      Except.ok { field := "Bogus", fast_ewma_span := 12, slow_ewma_span := 26,
                  signal_span := 9 } ∧
    "Bogus" ∉ STOCK_PRICE_FIELDS := by
  constructor
  · rfl
  · decide

/-- C7 as amended: construction fails (with the `ValueError` the spec calls a
`ConfigurationError`) exactly when the fast span is not strictly less than
the slow span; the source-field check happens only at invocation time, where
`__call__` returns `None` (computing nothing) whenever the field is absent
from the dataframe. -/
theorem macd_construction_span_check (field : String) (fs ss sg : Nat) :
    ((∃ cfg, MACD.init field fs ss sg = Except.ok cfg) ↔ fs < ss) ∧
    (∀ d : PyDataset, field ∉ pyColumns d →
      MACD.call { field := field, fast_ewma_span := fs, slow_ewma_span := ss,
                  signal_span := sg } d = none) := by
  constructor
  · by_cases hss : ss ≤ fs
    · simp only [MACD.init]
      rw [if_pos hss]
      simp
      omega
    · simp only [MACD.init]
      rw [if_neg hss]
      simp
      omega
  · intro d hd
    have hv : MACD.is_valid
        { field := field, fast_ewma_span := fs, slow_ewma_span := ss,
          signal_span := sg } d = false := by
      simp [MACD.is_valid, hd]
    simp [MACD.call, hv]

/-- Witness for C7-as-amended at a concrete input: spans 12 < 26 make
construction succeed, and calling a `Bogus`-field indicator on the concrete
dataframe returns `None`. -/
theorem macd_construction_span_check_witness :
    (∃ cfg, MACD.init "Bogus" 12 26 9 = Except.ok cfg) ∧ (12 < 26) ∧
    ("Bogus" ∉ pyColumns pyTwo) ∧
    MACD.call { field := "Bogus", fast_ewma_span := 12, slow_ewma_span := 26,
                signal_span := 9 } pyTwo = none :=
  ⟨(macd_construction_span_check "Bogus" 12 26 9).1.mpr (by decide), by decide, by decide,
   (macd_construction_span_check "Bogus" 12 26 9).2 pyTwo (by decide)⟩

theorem take_append_length {α : Type} : ∀ (l : List α) (x : α), (l ++ [x]).take l.length = l := by
  intro l x
  induction l with
  | nil => rfl
  | cons a as ih =>
    simp only [List.cons_append, List.length_cons, List.take_succ_cons, ih]

theorem getD_set_ne {α : Type} :
    ∀ (l : List α) (i n : Nat) (x d : α), n ≠ i → (l.set i x).getD n d = l.getD n d := by
  intro l
  induction l with
  | nil => intro i n x d _; rfl
  | cons a as ih =>
    intro i n x d h
    cases i with
    | zero =>
      cases n with
      | zero => exact absurd rfl h
      | succ n' => rfl
    | succ i' =>
      cases n with
      | zero => rfl
      | succ n' =>
        simp only [List.set_cons_succ, List.getD_cons_succ]
        exact ih i' n' x d (fun hh => h (congrArg Nat.succ hh))

/-- C4 counterexample: after `A += B` the heap cell of the receiver `A` no
longer holds `A`'s former state — the merge mutates its left operand rather
than leaving it unchanged; likewise `MACD.__call__` overwrites its argument's
heap cell with the column-augmented state. -/
theorem merge_mutates_receiver :
    (iaddS [dsA, dsB] 0 1).2.getD 0 emptyDS ≠ dsA ∧
    (macdS macdDefault [pyTwo] 0).2.getD 0 emptyPy ≠ pyTwo := by
  constructor
  · decide
  · have hv : MACD.is_valid macdDefault pyTwo = true := by decide
    have hm : (macdS macdDefault [pyTwo] 0).2.getD 0 emptyPy =
        MACD.augment macdDefault pyTwo := by
      simp [macdS, hv]
    rw [hm]
    intro hEq
    have h2 := congrArg (fun p => lookupAssoc MACD.FAST_EWMA p.extraCols) hEq
    simp only at h2
    rw [show (MACD.augment macdDefault pyTwo).extraCols =
      (updateAssoc MACD.MACD_HISTOGRAM (macdHistogram macdDefault pyTwo)
        (updateAssoc MACD.MACD_SIGNAL (macdSignal macdDefault pyTwo)
          (updateAssoc MACD.MACD_LINE (macdLine macdDefault pyTwo)
            (updateAssoc MACD.SLOW_EWMA (macdSlow macdDefault pyTwo)
              (updateAssoc MACD.FAST_EWMA (macdFast macdDefault pyTwo)
                pyTwo.extraCols))))) from rfl] at h2
    rw [lookupAssoc_updateAssoc_ne _ _ _ (by decide),
      lookupAssoc_updateAssoc_ne _ _ _ (by decide),
      lookupAssoc_updateAssoc_ne _ _ _ (by decide),
      lookupAssoc_updateAssoc_ne _ _ _ (by decide),
      lookupAssoc_updateAssoc_self] at h2
    rw [show pyTwo.extraCols = [] from rfl] at h2
    cases h2

/-- C4 as amended: the two range filters (and `_filter` generally) allocate a
fresh dataset object and leave every existing heap cell — in particular the
receiver — unchanged; the merge `A += B` instead returns the receiver's own
reference after overwriting the receiver's heap cell in place (only the right
operand and unrelated cells are untouched); and the MACD computation returns
its argument's own reference after overwriting the argument's cell with the
augmented state (other cells untouched).  Callers may therefore hold and
compare filter snapshots, but not merge or indicator "snapshots". -/
theorem operations_frame_behavior (σ : List StockPriceDataset) (i j : Nat) (a b : Int)
    (p : Record → Bool) (m : MACD) (π : List PyDataset) (k : Nat) :
    ((more_recent_thanS σ i a).2.take σ.length = σ) ∧
    ((more_recent_thanS σ i a).1 = σ.length) ∧
    ((less_recent_thanS σ i b).2.take σ.length = σ) ∧
    ((filterS σ i p).2.take σ.length = σ) ∧
    ((iaddS σ i j).1 = i) ∧
    (∀ n, n ≠ i → (iaddS σ i j).2.getD n emptyDS = σ.getD n emptyDS) ∧
    ((macdS m π k).2.length = π.length) ∧
    (∀ n, n ≠ k → (macdS m π k).2.getD n emptyPy = π.getD n emptyPy) := by
  refine ⟨take_append_length σ _, rfl, take_append_length σ _, take_append_length σ _,
    rfl, ?_, ?_, ?_⟩
  · intro n hn
    exact getD_set_ne σ i n _ emptyDS hn
  · simp only [macdS]
    split
    · simp [List.length_set]
    · rfl
  · intro n hn
    simp only [macdS]
    split
    · exact getD_set_ne π k n _ emptyPy hn
    · rfl

/-- Witness for C4-as-amended at a concrete input: after merging heap cell 0
with heap cell 1, cell 1 (the right operand) still holds `dsB`. -/
theorem operations_frame_behavior_witness :
    (iaddS [dsA, dsB] 0 1).2.getD 1 emptyDS = dsB :=
  ((operations_frame_behavior [dsA, dsB] 0 1 0 0 (fun _ => true) macdDefault
      [pyTwo] 0).2.2.2.2.2.1 1 (by decide)).trans rfl

/-- C9: the code path is correct for the daily and weekly intervals — start is
advanced by exactly one day (respectively seven days) and a too-narrow window
yields an empty dataset with no remote call — but for the monthly interval
`"1mo"` the call `timedelta(**{"months": 1})` raises a `TypeError`
unconditionally, because `datetime.timedelta` has no `months` keyword: the
monthly fetch can never advance the start date nor return a dataset. -/
theorem monthly_fetch_raises_type_error :
    from_yahoo_finance "PNG.V" 0 100 "1mo" =
      Except.error "TypeError: months is an invalid keyword argument for timedelta" ∧
    from_yahoo_finance "PNG.V" 0 1 "1d" =
      Except.ok (FetchOutcome.emptyDataset (StockPriceDataset.init "PNG.V" [])) ∧
    from_yahoo_finance "PNG.V" 0 10 "1d" =
      Except.ok (FetchOutcome.remoteCall "PNG.V" 1 10 "1d") ∧
    from_yahoo_finance "PNG.V" 0 7 "1wk" =
      Except.ok (FetchOutcome.emptyDataset (StockPriceDataset.init "PNG.V" [])) ∧
    from_yahoo_finance "PNG.V" 0 10 "1wk" =
      Except.ok (FetchOutcome.remoteCall "PNG.V" 7 10 "1wk") := by
  refine ⟨?_, ?_, ?_, ?_, ?_⟩ <;> rfl

/-- C10: the merge keeps the receiver's symbol, every filter (range or point,
i.e. any `_filter` instance) stamps the receiver's symbol onto the new
dataset, and the MACD computation leaves its argument's symbol untouched: no
operation changes a dataset's symbol. -/
theorem symbol_preserved (A B : StockPriceDataset) (a b : Int) (p : Record → Bool)
    (m : MACD) (d : PyDataset) :
    (A.iadd B).symbol = A.symbol ∧
    (A.filterDataset p).symbol = A.symbol ∧
    (A.more_recent_than a).symbol = A.symbol ∧
    (A.less_recent_than b).symbol = A.symbol ∧
    (MACD.augment m d).base.symbol = d.base.symbol :=
  ⟨rfl, rfl, rfl, rfl, rfl⟩
